import Mathlib

/-!
Shallow embedding of the rustty library (Option / Result containers and the
Array prototype utilities) together with proofs about the claims of its
specification.

The container part is embedded over a small universe `JSVal` of JavaScript
values, because the library is untyped at runtime: a container's `_value`
slot may hold `undefined`, a primitive, or another container.  An `Option`
instance is a pair of fields `_some : Bool` and `_value`, a `Result`
instance a pair `_ok : Bool` and `_value`, exactly as in
`src/src/option.ts`.

Methods that assign to `this` (`take`, `replace`, `Option.map`,
`Result.map`, `Result.mapErr`) are embedded as functions returning the pair
`(content of the returned reference, content of the receiver)` after the
call.  `cloned()` on `Option` and `into()` return `this` itself in the
source, so wherever they occur the returned reference aliases the receiver
and the two components coincide.

Methods that can throw are embedded in `Except JSVal`; the thrown payload
is the JavaScript value that `throw` receives (an `Error` object for
`throw new Error(msg)`, the raw `_value` for `Result.unwrap` /
`Result.unwrapErr`).
-/

/-- Universe of the JavaScript runtime values the claims touch.  `opt` and
`res` encode nested container instances by their two fields. -/
inductive JSVal : Type where
  | undef : JSVal
  | num : Int → JSVal
  | bigi : Int → JSVal
  | str : String → JSVal
  | boolean : Bool → JSVal
  | error : String → JSVal
  | opt : Bool → JSVal → JSVal
  | res : Bool → JSVal → JSVal
  deriving Repr, DecidableEq

/-- An `Option` instance of `src/src/option.ts`: fields `_some` and `_value`. -/
structure OptionObj : Type where
  _some : Bool
  _value : JSVal
  deriving Repr, DecidableEq

/-- A `Result` instance of `src/src/option.ts`: fields `_ok` and `_value`. -/
structure ResultObj : Type where
  _ok : Bool
  _value : JSVal
  deriving Repr, DecidableEq

namespace OptionObj

/-- `Option.Some(value)` — `new Option(true, value)`; `Some()` passes `undefined`. -/
def Some (value : JSVal) : OptionObj := ⟨true, value⟩

/-- `Option.None()` — `new Option(false)`, leaving `_value` `undefined`. -/
def None : OptionObj := ⟨false, JSVal.undef⟩

/-- `isSome()` — `return this._some`. -/
def isSome (o : OptionObj) : Bool := o._some

/-- `isNone()` — `return !this._some`. -/
def isNone (o : OptionObj) : Bool := !o._some

/-- `cloned()` (src/src/option.ts:107-109) — the body is `return this;`:
no copy is made, the receiver itself is returned. -/
def cloned (o : OptionObj) : OptionObj := o

/-- `into()` (src/src/option.ts:645-647) — `return this as unknown as Option<U>;`:
the receiver itself, only retyped. -/
def into (o : OptionObj) : OptionObj := o

/-- `unwrap()` — returns `_value` if `_some`, otherwise
`throw new Error("Called `Option.unwrap()` on a `None` value")`. -/
def unwrap (o : OptionObj) : Except JSVal JSVal :=
  if o._some then Except.ok o._value
  else Except.error (JSVal.error "Called `Option.unwrap()` on a `None` value")

/-- `take()` (src/src/option.ts:442-447): `const self = this.cloned();` —
since `cloned()` returns `this`, `self` aliases the receiver — then
`this._value = undefined; this._some = false; return self;`.  The result is
`(content of the returned reference, content of the receiver)` after the
call; both are the reset state because of the aliasing. -/
def take (_o : OptionObj) : OptionObj × OptionObj :=
  (⟨false, JSVal.undef⟩, ⟨false, JSVal.undef⟩)

/-- `replace(value)` (src/src/option.ts:422-426): `const self = this.cloned();`
(aliasing the receiver) then `this._value = value; return self;`.  Only
`_value` is assigned; `_some` keeps its old value.  The result is
`(content of the returned reference, content of the receiver)` after the
call; both coincide because of the aliasing. -/
def replace (o : OptionObj) (value : JSVal) : OptionObj × OptionObj :=
  (⟨o._some, value⟩, ⟨o._some, value⟩)

/-- `map(callback)` (src/src/option.ts:283-286):
`if (this._some) this._value = callback(this._value); return this.into();` —
the receiver is updated in place and returned (retyped).  The result is
`(content of the returned reference, content of the receiver)` after the
call. -/
def map (f : JSVal → JSVal) (o : OptionObj) : OptionObj × OptionObj :=
  let post : OptionObj := if o._some then ⟨true, f o._value⟩ else o
  (post, post)

end OptionObj

namespace ResultObj

/-- `Result.Ok(value)` — `new Result(true, value)`. -/
def Ok (value : JSVal) : ResultObj := ⟨true, value⟩

/-- `Result.Err(value)` — `new Result(false, value)`. -/
def Err (value : JSVal) : ResultObj := ⟨false, value⟩

/-- `isOk()` — `return this._ok`. -/
def isOk (r : ResultObj) : Bool := r._ok

/-- `isErr()` — `return !this._ok`. -/
def isErr (r : ResultObj) : Bool := !r._ok

/-- `ok()` (src/src/option.ts:1096-1098) —
`return this._ok ? Some(this._value) : None();`. -/
def ok (r : ResultObj) : OptionObj :=
  if r._ok then OptionObj.Some r._value else OptionObj.None

/-- `err()` (src/src/option.ts:812-814) —
`return this._ok ? None() : Some(this._value);`. -/
def err (r : ResultObj) : OptionObj :=
  if r._ok then OptionObj.None else OptionObj.Some r._value

/-- `unwrap()` (src/src/option.ts:1178-1181) — returns `_value` if `_ok`,
otherwise `throw this._value`: the contained error value itself is the
thrown payload. -/
def unwrap (r : ResultObj) : Except JSVal JSVal :=
  if r._ok then Except.ok r._value else Except.error r._value

/-- `unwrapErr()` (src/src/option.ts:1195-1198) — returns `_value` if not
`_ok`, otherwise `throw this._value`: the contained Ok value itself is the
thrown payload. -/
def unwrapErr (r : ResultObj) : Except JSVal JSVal :=
  if r._ok then Except.error r._value else Except.ok r._value

/-- `map(callback)` (src/src/option.ts:1025-1028):
`if (this._ok) this._value = callback(this._value); return this.into();` —
in-place update of `_value` on the Ok channel, `_ok` untouched; the
receiver itself is returned.  Result: `(returned reference, receiver)`
content after the call. -/
def map (f : JSVal → JSVal) (r : ResultObj) : ResultObj × ResultObj :=
  let post : ResultObj := if r._ok then ⟨true, f r._value⟩ else r
  (post, post)

/-- `mapErr(callback)` (src/src/option.ts:1043-1046):
`if (!this._ok) this._value = callback(this._value); return this.into();` —
in-place update of `_value` on the Err channel, `_ok` untouched. -/
def mapErr (f : JSVal → JSVal) (r : ResultObj) : ResultObj × ResultObj :=
  let post : ResultObj := if r._ok then r else ⟨false, f r._value⟩
  (post, post)

/-- Encoding of a `Result` instance as a runtime value (used when a method
stores `this` inside another container). -/
def toJS (r : ResultObj) : JSVal := JSVal.res r._ok r._value

/-- `transpose()` (src/src/option.ts:1162-1163):
`return this.unwrap().isNone() ? None() : Some(this.into());` —
`this.unwrap()` throws the Err payload when the receiver is Err; when it
returns, `.isNone()` is a method only an `Option` value has (otherwise a
`TypeError` is raised); in the non-None case the receiver itself (`this`,
via `into()`) is wrapped in `Some` — the inner Option is not unwrapped. -/
def transpose (r : ResultObj) : Except JSVal OptionObj := do
  let v ← r.unwrap
  match v with
  | JSVal.opt s _ =>
    if s then pure (OptionObj.Some r.toJS) else pure OptionObj.None
  | _ => Except.error (JSVal.error "TypeError: this.unwrap().isNone is not a function")

end ResultObj

namespace OptionObj

/-- `okOr(err)` (src/src/option.ts:337-339) —
`return this._some ? Ok(this._value) : Err(err);`. -/
def okOr (o : OptionObj) (e : JSVal) : ResultObj :=
  if o._some then ResultObj.Ok o._value else ResultObj.Err e

end OptionObj

/-- Successor on an encoded JS number: a concrete callback for the
counterexamples (`v => v + 1`). -/
def jsIncr : JSVal → JSVal
  | JSVal.num n => JSVal.num (n + 1)
  | v => v

/-- Claim C1: on `a = Some(1)` the claim says `a.take()` returns a container
equal to `Some(1)`; the code instead returns the receiver itself, already
reset to `None` (because `cloned()` returns `this`), so the returned
container is `None` and `unwrap()` on it throws — contradicting the
method's own doc example `assert(a_old === 1)`.  Likewise `b.replace(2)`
returns the mutated receiver `Some(2)` rather than `Some(1)`.  The parts of
the claim about the receiver afterwards (`a.isNone() === true`,
`b.unwrap() === 2`) do hold.  This theorem evaluates the code at the
failing inputs. -/
theorem take_replace_code_eval :
    (OptionObj.take (OptionObj.Some (JSVal.num 1))).1 = OptionObj.None
    ∧ OptionObj.isNone (OptionObj.take (OptionObj.Some (JSVal.num 1))).1 = true
    ∧ OptionObj.unwrap (OptionObj.take (OptionObj.Some (JSVal.num 1))).1
        = Except.error (JSVal.error "Called `Option.unwrap()` on a `None` value")
    ∧ OptionObj.isNone (OptionObj.take (OptionObj.Some (JSVal.num 1))).2 = true
    ∧ (OptionObj.replace (OptionObj.Some (JSVal.num 1)) (JSVal.num 2)).1
        = OptionObj.Some (JSVal.num 2)
    ∧ (OptionObj.replace (OptionObj.Some (JSVal.num 1)) (JSVal.num 2)).1
        ≠ OptionObj.Some (JSVal.num 1)
    ∧ OptionObj.unwrap (OptionObj.replace (OptionObj.Some (JSVal.num 1)) (JSVal.num 2)).2
        = Except.ok (JSVal.num 2) := by
  refine ⟨rfl, rfl, rfl, rfl, rfl, ?_, rfl⟩
  decide

/-- Claim C2, counterexample: `o = Some(1)` and `f = (v => v + 1)`.  The
claim says `o.map(f)` leaves the receiver unchanged; in the code the
receiver's `_value` is assigned in place, so after the call the receiver is
`Some(2)`, not `Some(1)`, and the returned container is that same receiver
rather than a new one. -/
theorem map_mutates_counterexample :
    (OptionObj.map jsIncr (OptionObj.Some (JSVal.num 1))).2
        = OptionObj.Some (JSVal.num 2)
    ∧ (OptionObj.map jsIncr (OptionObj.Some (JSVal.num 1))).2
        ≠ OptionObj.Some (JSVal.num 1)
    ∧ (OptionObj.map jsIncr (OptionObj.Some (JSVal.num 1))).1
        = (OptionObj.map jsIncr (OptionObj.Some (JSVal.num 1))).2 := by
  refine ⟨rfl, ?_, rfl⟩
  decide

/-- Claim C2, amended: `o.map(f)` applies the callback in place — when `o`
is `Some(v)` the receiver's stored value becomes `f(v)` and the method
returns the receiver itself (via `into()`); when `o` is `None` the receiver
is returned unchanged.  So `map` also mutates the receiver, alongside
`take` and `replace`. -/
theorem map_inplace_semantics (f : JSVal → JSVal) (v : JSVal) :
    (OptionObj.map f (OptionObj.Some v)).1 = (OptionObj.map f (OptionObj.Some v)).2
    ∧ OptionObj.unwrap (OptionObj.map f (OptionObj.Some v)).2 = Except.ok (f v)
    ∧ (OptionObj.map f ⟨false, v⟩).2 = ⟨false, v⟩
    ∧ (OptionObj.map f ⟨false, v⟩).1 = ⟨false, v⟩ := by
  refine ⟨rfl, rfl, ?_, ?_⟩ <;> simp [OptionObj.map]

/-- Claim C3: the claim (and the method's own doc examples) say
`Ok(None()).transpose()` is `None`, `Ok(Some(v)).transpose()` is
`Some(Ok(v))` and `Err(e).transpose()` is `Some(Err(e))`.  Evaluating the
code: the `Ok(None())` case does return `None`; but `Err(e).transpose()`
first calls `this.unwrap()`, which throws `e`; and `Ok(Some(1)).transpose()`
wraps the receiver itself, yielding `Some(Ok(Some(1)))` — the inner Option
is never unwrapped, so the doc's `b.unwrap().unwrap() === 1` fails. -/
theorem transpose_code_eval :
    ResultObj.transpose (ResultObj.Ok (JSVal.opt false JSVal.undef))
        = Except.ok OptionObj.None
    ∧ ResultObj.transpose (ResultObj.Err (JSVal.str "Error!"))
        = Except.error (JSVal.str "Error!")
    ∧ ResultObj.transpose (ResultObj.Ok (JSVal.opt true (JSVal.num 1)))
        = Except.ok (OptionObj.Some (JSVal.res true (JSVal.opt true (JSVal.num 1))))
    ∧ ResultObj.transpose (ResultObj.Ok (JSVal.opt true (JSVal.num 1)))
        ≠ Except.ok (OptionObj.Some (JSVal.res true (JSVal.num 1))) := by
  refine ⟨rfl, rfl, rfl, fun h => ?_⟩
  have h' : OptionObj.Some (JSVal.res true (JSVal.opt true (JSVal.num 1)))
      = OptionObj.Some (JSVal.res true (JSVal.num 1)) := Except.ok.inj h
  exact absurd h' (by decide)

/-- Claim C5: `Result.unwrap()` on `Ok(v)` returns `v` and on `Err(e)`
throws the contained error value `e` itself (not a synthetic message);
`unwrapErr()` on `Err(e)` returns `e` and on `Ok(v)` throws `v` itself. -/
theorem unwrap_unwrapErr_payload (v e : JSVal) :
    ResultObj.unwrap (ResultObj.Ok v) = Except.ok v
    ∧ ResultObj.unwrap (ResultObj.Err e) = Except.error e
    ∧ ResultObj.unwrapErr (ResultObj.Err e) = Except.ok e
    ∧ ResultObj.unwrapErr (ResultObj.Ok v) = Except.error v := by
  exact ⟨rfl, rfl, rfl, rfl⟩

/-- Claim C6: the Ok/Err discriminant `_ok` is fixed by the constructor
(`Ok` sets it `true`, `Err` sets it `false`) and no method ever assigns it:
in the whole `Result` class of `src/src/option.ts` the only assignments to
a field of `this` are `this._value = ...` in `map` and `mapErr`, so those
two are embedded with an explicit post-state and shown to preserve `_ok`;
every other method only reads the receiver. -/
theorem result_channel_fixed (v e : JSVal) (f g : JSVal → JSVal) (r : ResultObj) :
    (ResultObj.Ok v)._ok = true
    ∧ (ResultObj.Err e)._ok = false
    ∧ (ResultObj.map f r).2._ok = r._ok
    ∧ (ResultObj.map f r).1._ok = r._ok
    ∧ (ResultObj.mapErr g r).2._ok = r._ok
    ∧ (ResultObj.mapErr g r).1._ok = r._ok := by
  obtain ⟨ok, val⟩ := r
  cases ok <;> simp [ResultObj.Ok, ResultObj.Err, ResultObj.map, ResultObj.mapErr]

/-- Claim C7: the conversion round-trips hold for all contained values:
`Some(v).okOr(e).ok().unwrap() === v`; `None().okOr(e).unwrapErr() === e`;
`Ok(v).ok().unwrap() === v`; `Err(e).err().unwrap() === e`. -/
theorem conversion_laws (v e : JSVal) :
    OptionObj.unwrap (ResultObj.ok (OptionObj.okOr (OptionObj.Some v) e)) = Except.ok v
    ∧ ResultObj.unwrapErr (OptionObj.okOr OptionObj.None e) = Except.ok e
    ∧ OptionObj.unwrap (ResultObj.ok (ResultObj.Ok v)) = Except.ok v
    ∧ OptionObj.unwrap (ResultObj.err (ResultObj.Err e)) = Except.ok e := by
  exact ⟨rfl, rfl, rfl, rfl⟩

/-!
Array prototype utilities (`src/unnamed/part_003`, identical implementations
in `src/unnamed/part_004`).  Arrays are embedded as Lean lists; the
element type is generic where the source is element-agnostic.  Operations
returning the library's `Option` of an element are embedded with Lean's
`Option`, whose `isNone` / extraction behaviour coincides with the wrapper
observations the claims make.
-/

/-- `Array.prototype.slice(start, end)` per ECMAScript: negative indices
count from the end, out-of-range indices are clamped. -/
def jsSliceInt {α : Type} (l : List α) (start stop : Int) : List α :=
  let len : Int := l.length
  let s : Int := if start < 0 then max (len + start) 0 else min start len
  let e : Int := if stop < 0 then max (len + stop) 0 else min stop len
  (l.take e.toNat).drop s.toNat

/-- `windows(size)` (src/unnamed/part_003:218-221):
`if (size <= 0 || size > this.length) throw new Error("size is out of bounds");
return this.map((_, i) => this.slice(i, i + size)).slice(0, this.length - size + 1);`. -/
def ArrayProto.windows {α : Type} (l : List α) (size : Int) : Except String (List (List α)) :=
  if size ≤ 0 ∨ size > (l.length : Int) then Except.error "size is out of bounds"
  else Except.ok
    (((List.range l.length).map (fun i => jsSliceInt l i (i + size))).take
      (l.length - size.toNat + 1))

/-- `first()` (src/unnamed/part_003:87-89) —
`return this.length === 0 ? None() : Some(this[0]);`. -/
def ArrayProto.first {α : Type} : List α → Option α
  | [] => none
  | a :: _ => some a

/-- The relation the comparator `(a, b) => b - a` of `max` sorts by:
`a` may precede `b` when the comparator is non-positive, i.e. `b ≤ a`
(descending numeric order). -/
def descOrder (a b : Int) : Prop := b ≤ a

instance : DecidableRel descOrder := fun a b => inferInstanceAs (Decidable (b ≤ a))

instance : IsTotal Int descOrder := ⟨fun a b => (le_total b a).imp id id⟩

instance : IsTrans Int descOrder := ⟨fun _ _ _ h h' => le_trans h' h⟩

/-- `max()` (src/unnamed/part_003:253-257) on a number array:
`if (this.length === 0) return None();` — the string branch is not taken
for numbers — `return Some(this.sort((a, b) => b - a).first().unwrap());`.
`sort` sorts the receiver **in place** (modelled by a stable insertion sort
by the comparator's order, as engines implement); `first().unwrap()` of the
now-sorted, non-empty receiver is its head, re-wrapped by `Some(...)`.
The result is `(returned Option, content of the receiver after the call)`. -/
def ArrayProto.max (l : List Int) : Option Int × List Int :=
  if l.length = 0 then (none, l)
  else
    let sorted := List.insertionSort descOrder l
    (ArrayProto.first sorted, sorted)

/-- `min()` (src/unnamed/part_003:259-263) on a number array: as `max` but
with comparator `(a, b) => a - b`, i.e. ascending `≤` order. -/
def ArrayProto.min (l : List Int) : Option Int × List Int :=
  if l.length = 0 then (none, l)
  else
    let sorted := List.insertionSort (fun a b : Int => a ≤ b) l
    (ArrayProto.first sorted, sorted)

/-- A JavaScript numeric value: a (number) or a BigInt.  The claims use
integer-valued numbers, which `num` models exactly. -/
inductive NumVal : Type where
  | num : Int → NumVal
  | bigi : Int → NumVal
  deriving Repr, DecidableEq

/-- `typeof this[0] === "bigint"` — on an empty array `this[0]` is
`undefined`, so the test is false. -/
def firstIsBigInt : List NumVal → Bool
  | NumVal.bigi _ :: _ => true
  | _ => false

/-- JavaScript `+` on two numeric values; mixing a BigInt with a number
raises a `TypeError`. -/
def jsAdd : NumVal → NumVal → Except String NumVal
  | NumVal.num a, NumVal.num b => Except.ok (NumVal.num (a + b))
  | NumVal.bigi a, NumVal.bigi b => Except.ok (NumVal.bigi (a + b))
  | _, _ => Except.error "TypeError: Cannot mix BigInt and other types"

/-- JavaScript `*` on two numeric values, as `jsAdd`. -/
def jsMul : NumVal → NumVal → Except String NumVal
  | NumVal.num a, NumVal.num b => Except.ok (NumVal.num (a * b))
  | NumVal.bigi a, NumVal.bigi b => Except.ok (NumVal.bigi (a * b))
  | _, _ => Except.error "TypeError: Cannot mix BigInt and other types"

/-- `BigInt(x)` on an integer-valued number (exact). -/
def NumVal.toBigInt : NumVal → NumVal
  | NumVal.num n => NumVal.bigi n
  | NumVal.bigi n => NumVal.bigi n

/-- `sum(forceBigInt = false)` (src/unnamed/part_003:270-273):
`const result = this.reduce((a, b) => a + b, typeof this[0] === "bigint" ? 0n : 0);
return forceBigInt ? BigInt(result) : result;`. -/
def ArrayProto.sum (l : List NumVal) (forceBigInt : Bool) : Except String NumVal := do
  let init := if firstIsBigInt l then NumVal.bigi 0 else NumVal.num 0
  let r ← List.foldlM jsAdd init l
  pure (if forceBigInt then r.toBigInt else r)

/-- `product(forceBigInt = false)` (src/unnamed/part_003:265-268): as `sum`
with `*` and identity `1n` / `1`. -/
def ArrayProto.product (l : List NumVal) (forceBigInt : Bool) : Except String NumVal := do
  let init := if firstIsBigInt l then NumVal.bigi 1 else NumVal.num 1
  let r ← List.foldlM jsMul init l
  pure (if forceBigInt then r.toBigInt else r)

/-- Claim C4: the claim (and the `windows` interface doc, which says "If
the array is shorter than `size`, the method returns empty array") expects
`[1,2].windows(3)` to yield `[]`; the implementation instead throws
`"size is out of bounds"` because its guard also rejects `size > this.length`.
The other parts of the claim hold: `[1,2,3,4,5].windows(3)` yields the
three contiguous windows in order and `windows(0)` fails. -/
theorem windows_code_eval :
    ArrayProto.windows ([1, 2] : List Int) 3 = Except.error "size is out of bounds"
    ∧ ArrayProto.windows ([1, 2, 3, 4, 5] : List Int) 3
        = Except.ok [[1, 2, 3], [2, 3, 4], [3, 4, 5]]
    ∧ ArrayProto.windows ([1, 2, 3] : List Int) 0 = Except.error "size is out of bounds"
    ∧ ArrayProto.windows ([1, 2, 3] : List Int) (-1) = Except.error "size is out of bounds" := by
  exact ⟨rfl, rfl, rfl, rfl⟩

/-- Claim C9: on the empty sequence `sum()` returns the numeric identity
`0`, `product()` returns `1` (both as plain numbers, since `typeof this[0]`
is not `"bigint"`), and `first()` / `max()` return `None`. -/
theorem empty_aggregates :
    ArrayProto.sum [] false = Except.ok (NumVal.num 0)
    ∧ ArrayProto.product [] false = Except.ok (NumVal.num 1)
    ∧ (ArrayProto.first ([] : List NumVal)).isNone = true
    ∧ (ArrayProto.max []).1.isNone = true := by
  exact ⟨rfl, rfl, rfl, rfl⟩

/-- Claim C8, counterexample: `s = [3,1,2]`.  The claim says the sequence
is unchanged after `s.max()`; but `max` calls `this.sort((a, b) => b - a)`,
which sorts the receiver in place, leaving `[3,2,1]`. -/
theorem max_mutates_counterexample :
    (ArrayProto.max [3, 1, 2]).2 = [3, 2, 1]
    ∧ (ArrayProto.max [3, 1, 2]).2 ≠ [3, 1, 2] := by
  refine ⟨?_, ?_⟩ <;> decide

/-- The head of a sorted permutation of a non-empty list is a member that
the sort order relates to every other member. -/
theorem first_sorted_bound {r : Int → Int → Prop} {l s : List Int}
    (hp : s.Perm l) (hs : List.Sorted r s) (hne : l ≠ []) :
    ∃ m, ArrayProto.first s = some m ∧ m ∈ l ∧ ∀ x ∈ l, x = m ∨ r m x := by
  cases s with
  | nil => exact absurd hp.nil_eq.symm hne
  | cons m rest =>
    refine ⟨m, rfl, hp.mem_iff.mp (List.mem_cons_self m rest), fun x hx => ?_⟩
    rcases List.mem_cons.mp (hp.mem_iff.mpr hx) with hxm | hxr
    · exact Or.inl hxm
    · exact Or.inr ((List.sorted_cons.mp hs).1 x hxr)

/-- Claim C8, amended: `max()` and `min()` do return the Option-wrapped
maximum / minimum of a non-empty number sequence, but they sort the
receiver in place as a side effect (`this.sort(...)`), so afterwards the
sequence is a permutation of its former self in sorted order, not
necessarily unchanged. -/
theorem max_min_amended (l : List Int) (h : l ≠ []) :
    (∃ m, (ArrayProto.max l).1 = some m ∧ m ∈ l ∧ ∀ x ∈ l, x ≤ m)
    ∧ (ArrayProto.max l).2.Perm l
    ∧ (∃ m, (ArrayProto.min l).1 = some m ∧ m ∈ l ∧ ∀ x ∈ l, m ≤ x)
    ∧ (ArrayProto.min l).2.Perm l := by
  have hlen : ¬ l.length = 0 := fun h0 => h (List.length_eq_zero.mp h0)
  have pmax := List.perm_insertionSort descOrder l
  have pmin := List.perm_insertionSort (fun a b : Int => a ≤ b) l
  have smax := List.sorted_insertionSort descOrder l
  have smin := List.sorted_insertionSort (fun a b : Int => a ≤ b) l
  refine ⟨?_, ?_, ?_, ?_⟩
  · obtain ⟨m, hm1, hm2, hm3⟩ := first_sorted_bound pmax smax h
    refine ⟨m, ?_, hm2, fun x hx => ?_⟩
    · simp [ArrayProto.max, hlen, hm1]
    · rcases hm3 x hx with hxm | hxm
      · exact le_of_eq hxm
      · exact hxm
  · simpa [ArrayProto.max, hlen] using pmax
  · obtain ⟨m, hm1, hm2, hm3⟩ := first_sorted_bound pmin smin h
    refine ⟨m, ?_, hm2, fun x hx => ?_⟩
    · simp [ArrayProto.min, hlen, hm1]
    · rcases hm3 x hx with hxm | hxm
      · exact le_of_eq hxm.symm
      · exact hxm
  · simpa [ArrayProto.min, hlen] using pmin

/-- Witness for `max_min_amended` at the concrete input `[3,1,2]`. -/
theorem max_min_amended_witness :
    (ArrayProto.max [3, 1, 2]).2.Perm [3, 1, 2]
    ∧ (ArrayProto.min [3, 1, 2]).2.Perm [3, 1, 2] :=
  ⟨(max_min_amended [3, 1, 2] (by decide)).2.1,
   (max_min_amended [3, 1, 2] (by decide)).2.2.2⟩

/-!
`chunks` and `rchunks` (src/unnamed/part_003:65-70 and 107-112) are `for`
loops whose step is the caller-supplied `size`; with `size <= 0` the loop
counter never progresses toward the exit condition.  They are embedded with
an explicit fuel parameter: `none` means the loop has not finished within
`fuel` iterations, so a result that is `none` for *every* fuel is a
non-terminating run.
-/

/-- Loop of `chunks(size)`:
`for (let i = 0; i < this.length; i += size) chunks.push(this.slice(i, i + size));`. -/
def chunksLoop {α : Type} (l : List α) (size : Int) :
    Nat → Int → List (List α) → Option (List (List α))
  | 0, _, _ => none
  | fuel + 1, i, acc =>
    if i < (l.length : Int) then
      chunksLoop l size fuel (i + size) (acc ++ [jsSliceInt l i (i + size)])
    else some acc

/-- `chunks(size)` (src/unnamed/part_003:65-70), with fuel. -/
def ArrayProto.chunks {α : Type} (l : List α) (size : Int) (fuel : Nat) :
    Option (List (List α)) :=
  chunksLoop l size fuel 0 []

/-- Loop of `rchunks(size)`:
`for (let i = this.length; i > 0; i -= size) chunks.push(this.slice(Math.max(i - size, 0), i));`. -/
def rchunksLoop {α : Type} (l : List α) (size : Int) :
    Nat → Int → List (List α) → Option (List (List α))
  | 0, _, _ => none
  | fuel + 1, i, acc =>
    if 0 < i then
      rchunksLoop l size fuel (i - size) (acc ++ [jsSliceInt l (max (i - size) 0) i])
    else some acc

/-- `rchunks(size)` (src/unnamed/part_003:107-112), with fuel. -/
def ArrayProto.rchunks {α : Type} (l : List α) (size : Int) (fuel : Nat) :
    Option (List (List α)) :=
  rchunksLoop l size fuel (l.length : Int) []

theorem chunksLoop_zero {α : Type} (l : List α) (size i : Int) (acc : List (List α)) :
    chunksLoop l size 0 i acc = none := rfl

theorem chunksLoop_succ {α : Type} (l : List α) (size : Int) (fuel : Nat) (i : Int)
    (acc : List (List α)) :
    chunksLoop l size (fuel + 1) i acc =
      if i < (l.length : Int) then
        chunksLoop l size fuel (i + size) (acc ++ [jsSliceInt l i (i + size)])
      else some acc := rfl

theorem rchunksLoop_zero {α : Type} (l : List α) (size i : Int) (acc : List (List α)) :
    rchunksLoop l size 0 i acc = none := rfl

theorem rchunksLoop_succ {α : Type} (l : List α) (size : Int) (fuel : Nat) (i : Int)
    (acc : List (List α)) :
    rchunksLoop l size (fuel + 1) i acc =
      if 0 < i then
        rchunksLoop l size fuel (i - size) (acc ++ [jsSliceInt l (max (i - size) 0) i])
      else some acc := rfl

/-- Reference recursion for `chunks` with positive chunk width `s + 1`:
take a piece from the front, recurse on the rest. -/
def chunksRec {α : Type} (s : Nat) (l : List α) : List (List α) :=
  match l with
  | [] => []
  | x :: xs => (x :: xs).take (s + 1) :: chunksRec s ((x :: xs).drop (s + 1))
termination_by l.length
decreasing_by
  simp only [List.length_drop, List.length_cons]
  omega

/-- Reference recursion for `rchunks` with positive chunk width `s + 1`:
take a piece from the back, recurse on the front part. -/
def rchunksRec {α : Type} (s : Nat) (l : List α) : List (List α) :=
  match l with
  | [] => []
  | x :: xs =>
    (x :: xs).drop ((x :: xs).length - (s + 1)) ::
      rchunksRec s ((x :: xs).take ((x :: xs).length - (s + 1)))
termination_by l.length
decreasing_by
  simp only [List.length_take, List.length_cons]
  omega

theorem chunksRec_nil {α : Type} (s : Nat) : chunksRec s ([] : List α) = [] := by
  simp [chunksRec]

theorem rchunksRec_nil {α : Type} (s : Nat) : rchunksRec s ([] : List α) = [] := by
  simp [rchunksRec]

theorem chunksRec_cons {α : Type} (s : Nat) (x : α) (xs : List α) :
    chunksRec s (x :: xs) =
      (x :: xs).take (s + 1) :: chunksRec s ((x :: xs).drop (s + 1)) := by
  rw [chunksRec]

theorem rchunksRec_cons {α : Type} (s : Nat) (x : α) (xs : List α) :
    rchunksRec s (x :: xs) =
      (x :: xs).drop ((x :: xs).length - (s + 1)) ::
        rchunksRec s ((x :: xs).take ((x :: xs).length - (s + 1))) := by
  rw [rchunksRec]

/-- A non-empty list unfolds `chunksRec` by one piece. -/
theorem chunksRec_ne_nil {α : Type} (s : Nat) (l : List α) (h : l ≠ []) :
    chunksRec s l = l.take (s + 1) :: chunksRec s (l.drop (s + 1)) := by
  cases l with
  | nil => exact absurd rfl h
  | cons x xs => exact chunksRec_cons s x xs

/-- A non-empty list unfolds `rchunksRec` by one piece from the back. -/
theorem rchunksRec_ne_nil {α : Type} (s : Nat) (l : List α) (h : l ≠ []) :
    rchunksRec s l =
      l.drop (l.length - (s + 1)) :: rchunksRec s (l.take (l.length - (s + 1))) := by
  cases l with
  | nil => exact absurd rfl h
  | cons x xs => exact rchunksRec_cons s x xs

/-- The pieces of `chunksRec` concatenate back to the original list. -/
theorem chunksRec_flatten {α : Type} (s : Nat) (l : List α) :
    (chunksRec s l).flatten = l := by
  cases l with
  | nil => simp [chunksRec_nil]
  | cons x xs =>
    rw [chunksRec_cons, List.flatten_cons,
      chunksRec_flatten s ((x :: xs).drop (s + 1)), List.take_append_drop]
termination_by l.length
decreasing_by
  simp only [List.length_drop, List.length_cons]
  omega

/-- `chunksRec` produces `⌈length / (s+1)⌉` pieces. -/
theorem chunksRec_length {α : Type} (s : Nat) (l : List α) :
    (chunksRec s l).length = (l.length + s) / (s + 1) := by
  cases l with
  | nil => simp [chunksRec_nil, Nat.div_eq_of_lt (by omega : s < s + 1)]
  | cons x xs =>
    rw [chunksRec_cons]
    have ih := chunksRec_length s ((x :: xs).drop (s + 1))
    simp only [List.length_cons, ih, List.length_drop]
    rcases le_or_lt (s + 1) (xs.length + 1) with hle | hlt
    · have h1 : xs.length + 1 - (s + 1) + s = xs.length := by omega
      have h2 : xs.length + 1 + s = xs.length + (s + 1) := by omega
      rw [h1, h2, Nat.add_div_right _ (by omega)]
    · have h1 : xs.length + 1 - (s + 1) + s = s := by omega
      have h2 : s / (s + 1) = 0 := Nat.div_eq_of_lt (by omega)
      have h3 : (xs.length + 1 + s) / (s + 1) = 1 :=
        Nat.div_eq_of_lt_le (by omega) (by omega)
      rw [h1, h2, h3]
termination_by l.length
decreasing_by
  simp only [List.length_drop, List.length_cons]
  omega

/-- The pieces of `rchunksRec`, concatenated in reverse piece order,
rebuild the original list. -/
theorem rchunksRec_flatten {α : Type} (s : Nat) (l : List α) :
    (rchunksRec s l).reverse.flatten = l := by
  cases l with
  | nil => simp [rchunksRec_nil]
  | cons x xs =>
    rw [rchunksRec_cons, List.reverse_cons, List.flatten_append,
      rchunksRec_flatten s ((x :: xs).take ((x :: xs).length - (s + 1)))]
    simp [List.take_append_drop]
termination_by l.length
decreasing_by
  simp only [List.length_take, List.length_cons]
  omega

/-- `rchunksRec` produces `⌈length / (s+1)⌉` pieces. -/
theorem rchunksRec_length {α : Type} (s : Nat) (l : List α) :
    (rchunksRec s l).length = (l.length + s) / (s + 1) := by
  cases l with
  | nil => simp [rchunksRec_nil, Nat.div_eq_of_lt (by omega : s < s + 1)]
  | cons x xs =>
    rw [rchunksRec_cons]
    have ih := rchunksRec_length s ((x :: xs).take ((x :: xs).length - (s + 1)))
    simp only [List.length_cons, List.length_take] at ih ⊢
    rw [ih]
    rcases le_or_lt (s + 1) (xs.length + 1) with hle | hlt
    · have h1 : min (xs.length + 1 - (s + 1)) (xs.length + 1) + s = xs.length := by omega
      have h2 : xs.length + 1 + s = xs.length + (s + 1) := by omega
      rw [h1, h2, Nat.add_div_right _ (by omega)]
    · have h1 : min (xs.length + 1 - (s + 1)) (xs.length + 1) + s = s := by omega
      have h2 : s / (s + 1) = 0 := Nat.div_eq_of_lt (by omega)
      have h3 : (xs.length + 1 + s) / (s + 1) = 1 :=
        Nat.div_eq_of_lt_le (by omega) (by omega)
      rw [h1, h2, h3]
termination_by l.length
decreasing_by
  simp only [List.length_take, List.length_cons]
  omega

/-- Clamped take-then-drop equals drop-then-take (Nat index form of
`slice(i, i + n)`). -/
theorem take_drop_clamp {α : Type} (l : List α) (i n : Nat) :
    (l.take (min (i + n) l.length)).drop (min i l.length) = (l.drop i).take n := by
  rcases le_or_lt i l.length with hi | hi
  · rw [min_eq_left hi, List.drop_take]
    rcases le_or_lt (i + n) l.length with hin | hin
    · rw [min_eq_left hin]
      congr 1
      omega
    · rw [min_eq_right (le_of_lt hin)]
      have hlen : (l.drop i).length = l.length - i := List.length_drop i l
      rw [List.take_of_length_le (by omega), List.take_of_length_le (by omega)]
  · rw [min_eq_right (le_of_lt hi), min_eq_right (by omega), List.take_length,
      List.drop_eq_nil_of_le (le_refl l.length), List.drop_eq_nil_of_le (le_of_lt hi)]
    simp

/-- `slice(i, i + n)` at Nat indices is `(l.drop i).take n`. -/
theorem jsSliceInt_nat {α : Type} (l : List α) (i n : Nat) :
    jsSliceInt l (i : Int) ((i : Int) + (n : Int)) = (l.drop i).take n := by
  unfold jsSliceInt
  have h1 : ¬ ((i : Int) < 0) := by omega
  have h2 : ¬ ((i : Int) + (n : Int) < 0) := by omega
  simp only [h1, h2, if_false]
  have hs : (min (i : Int) (l.length : Int)).toNat = min i l.length := by omega
  have he : (min ((i : Int) + (n : Int)) (l.length : Int)).toNat = min (i + n) l.length := by
    omega
  rw [hs, he, take_drop_clamp]

/-- `slice(Math.max(i - t, 0), i)` at Nat indices with `i ≤ length` is
`(l.take i).drop (i - t)`. -/
theorem jsSliceInt_rpiece {α : Type} (l : List α) (i t : Nat) (hi : i ≤ l.length) :
    jsSliceInt l (max ((i : Int) - (t : Int)) 0) (i : Int) = (l.take i).drop (i - t) := by
  unfold jsSliceInt
  have h1 : ¬ (max ((i : Int) - (t : Int)) 0 < 0) := by omega
  have h2 : ¬ ((i : Int) < 0) := by omega
  simp only [h1, h2, if_false]
  have hs : (min (max ((i : Int) - (t : Int)) 0) (l.length : Int)).toNat = i - t := by omega
  have he : (min (i : Int) (l.length : Int)).toNat = i := by omega
  rw [hs, he]

/-- For a positive step `s + 1`, the `chunks` loop terminates from any
non-negative counter within `l.length + 1 - i` iterations and accumulates
exactly the `chunksRec` pieces of the remaining suffix. -/
theorem chunksLoop_eq {α : Type} (l : List α) (s : Nat) :
    ∀ (fuel : Nat) (i : Int) (acc : List (List α)), 0 ≤ i →
      l.length - i.toNat < fuel →
      chunksLoop l ((s : Int) + 1) fuel i acc = some (acc ++ chunksRec s (l.drop i.toNat)) := by
  intro fuel
  induction fuel with
  | zero => intro i acc h0 hf; omega
  | succ f ih =>
    intro i acc h0 hf
    rw [chunksLoop_succ]
    by_cases hi : i < (l.length : Int)
    · rw [if_pos hi]
      obtain ⟨j, rfl⟩ : ∃ j : Nat, (j : Int) = i := ⟨i.toNat, Int.toNat_of_nonneg h0⟩
      have hj : j < l.length := by omega
      have hpiece : jsSliceInt l (j : Int) ((j : Int) + ((s : Int) + 1))
          = (l.drop j).take (s + 1) := by
        have h := jsSliceInt_nat l j (s + 1)
        push_cast at h
        exact h
      have hrec := ih ((j : Int) + ((s : Int) + 1)) (acc ++ [(l.drop j).take (s + 1)])
        (by omega) (by omega)
      have htn : (((j : Int) + ((s : Int) + 1))).toNat = j + (s + 1) := by omega
      have hjt : ((j : Int)).toNat = j := by omega
      rw [hpiece, hrec, htn, hjt]
      have hne : l.drop j ≠ [] := by
        intro hnil
        have := List.drop_eq_nil_iff.mp hnil
        omega
      rw [chunksRec_ne_nil s (l.drop j) hne, List.drop_drop]
      simp [List.append_assoc]
    · rw [if_neg hi]
      have hge : l.length ≤ i.toNat := by omega
      rw [List.drop_eq_nil_of_le hge, chunksRec_nil]
      simp

/-- For a positive step `s + 1`, the `rchunks` loop terminates from any
counter `i ≤ l.length` within `i.toNat + 1` iterations and accumulates
exactly the `rchunksRec` pieces of the prefix `l.take i.toNat`. -/
theorem rchunksLoop_eq {α : Type} (l : List α) (s : Nat) :
    ∀ (fuel : Nat) (i : Int) (acc : List (List α)), i ≤ (l.length : Int) →
      i.toNat < fuel →
      rchunksLoop l ((s : Int) + 1) fuel i acc
        = some (acc ++ rchunksRec s (l.take i.toNat)) := by
  intro fuel
  induction fuel with
  | zero => intro i acc hle hf; omega
  | succ f ih =>
    intro i acc hle hf
    rw [rchunksLoop_succ]
    by_cases hi : 0 < i
    · rw [if_pos hi]
      obtain ⟨j, rfl⟩ : ∃ j : Nat, (j : Int) = i := ⟨i.toNat, Int.toNat_of_nonneg (le_of_lt hi)⟩
      have hjlen : j ≤ l.length := by omega
      have hjpos : 0 < j := by omega
      have hpiece : jsSliceInt l (max ((j : Int) - ((s : Int) + 1)) 0) (j : Int)
          = (l.take j).drop (j - (s + 1)) := by
        have h := jsSliceInt_rpiece l j (s + 1) hjlen
        push_cast at h
        exact h
      have hrec := ih ((j : Int) - ((s : Int) + 1)) (acc ++ [(l.take j).drop (j - (s + 1))])
        (by omega) (by omega)
      have htn : (((j : Int) - ((s : Int) + 1))).toNat = j - (s + 1) := by omega
      have hjt : ((j : Int)).toNat = j := by omega
      rw [hpiece, hrec, htn, hjt]
      have hne : l.take j ≠ [] := by
        intro hnil
        rcases List.take_eq_nil_iff.mp hnil with h | h
        · omega
        · subst h
          simp at hjlen
          omega
      rw [rchunksRec_ne_nil s (l.take j) hne]
      have hlen : (l.take j).length = j := by
        simp only [List.length_take]
        omega
      rw [hlen, List.take_take]
      have hmin : min (j - (s + 1)) j = j - (s + 1) := by omega
      rw [hmin]
      simp [List.append_assoc]
    · rw [if_neg hi]
      have : i.toNat = 0 := by omega
      rw [this]
      simp only [List.take_zero, rchunksRec_nil]
      simp

/-- With step `size ≤ 0` and a non-empty array, the counter of the `chunks`
loop stays at or below `0 < length` forever, so no amount of fuel finishes
the loop. -/
theorem chunksLoop_none {α : Type} (l : List α) (size : Int) (hsize : size ≤ 0)
    (hl : l ≠ []) :
    ∀ (fuel : Nat) (i : Int) (acc : List (List α)), i ≤ 0 →
      chunksLoop l size fuel i acc = none := by
  intro fuel
  induction fuel with
  | zero => intro i acc hi; rfl
  | succ f ih =>
    intro i acc hi
    have hlen : 0 < l.length := List.length_pos.mpr hl
    rw [chunksLoop_succ, if_pos (by omega : i < (l.length : Int))]
    exact ih _ _ (by omega)

/-- With step `size ≤ 0`, the counter of the `rchunks` loop never drops
below `1`, so no amount of fuel finishes the loop once it starts positive. -/
theorem rchunksLoop_none {α : Type} (l : List α) (size : Int) (hsize : size ≤ 0) :
    ∀ (fuel : Nat) (i : Int) (acc : List (List α)), 1 ≤ i →
      rchunksLoop l size fuel i acc = none := by
  intro fuel
  induction fuel with
  | zero => intro i acc hi; rfl
  | succ f ih =>
    intro i acc hi
    rw [rchunksLoop_succ, if_pos (by omega : (0 : Int) < i)]
    exact ih _ _ (by omega)

/-- Claim C10: for every `n ≥ 1`, `chunks(n)` and `rchunks(n)` terminate
(fuel `length + 1` suffices) and return `⌈length / n⌉` pieces whose
concatenation — in order for `chunks`, in reverse piece order for
`rchunks` — is the original sequence; and since neither method checks its
argument, for `n ≤ 0` on a non-empty sequence the loop never finishes (it
is `none` for every fuel), so `n ≥ 1` is a genuine termination
precondition. -/
theorem chunks_rchunks_correct {α : Type} (l : List α) (n : Int) :
    (1 ≤ n → ∃ out, ArrayProto.chunks l n (l.length + 1) = some out
        ∧ out.flatten = l
        ∧ out.length = (l.length + n.toNat - 1) / n.toNat)
    ∧ (1 ≤ n → ∃ out, ArrayProto.rchunks l n (l.length + 1) = some out
        ∧ out.reverse.flatten = l
        ∧ out.length = (l.length + n.toNat - 1) / n.toNat)
    ∧ (n ≤ 0 → l ≠ [] → ∀ fuel, ArrayProto.chunks l n fuel = none)
    ∧ (n ≤ 0 → l ≠ [] → ∀ fuel, ArrayProto.rchunks l n fuel = none) := by
  refine ⟨?_, ?_, ?_, ?_⟩
  · intro hn
    obtain ⟨s, rfl⟩ : ∃ s : Nat, ((s : Int) + 1) = n := ⟨(n - 1).toNat, by omega⟩
    refine ⟨chunksRec s l, ?_, chunksRec_flatten s l, ?_⟩
    · have h := chunksLoop_eq l s (l.length + 1) 0 [] (le_refl 0) (by simp)
      simpa [ArrayProto.chunks] using h
    · have hsn : ((s : Int) + 1).toNat = s + 1 := by omega
      rw [chunksRec_length, hsn]
      congr 1
  · intro hn
    obtain ⟨s, rfl⟩ : ∃ s : Nat, ((s : Int) + 1) = n := ⟨(n - 1).toNat, by omega⟩
    refine ⟨rchunksRec s l, ?_, rchunksRec_flatten s l, ?_⟩
    · have h := rchunksLoop_eq l s (l.length + 1) (l.length : Int) [] (le_refl _)
        (by simp)
      simpa [ArrayProto.rchunks] using h
    · have hsn : ((s : Int) + 1).toNat = s + 1 := by omega
      rw [rchunksRec_length, hsn]
      congr 1
  · intro hn hl fuel
    exact chunksLoop_none l n hn hl fuel 0 [] (le_refl 0)
  · intro hn hl fuel
    have hlen : 0 < l.length := List.length_pos.mpr hl
    exact rchunksLoop_none l n hn fuel (l.length : Int) [] (by omega)

/-- Witness for `chunks_rchunks_correct`: `[1,2,3,4,5].chunks(2)` and
`.rchunks(2)` terminate with the stated shape, while `[1].chunks(0)` and
`[1].rchunks(0)` never finish (shown at fuel 7). -/
theorem chunks_rchunks_witness :
    (∃ out, ArrayProto.chunks ([1, 2, 3, 4, 5] : List Int) 2 6 = some out
        ∧ out.flatten = [1, 2, 3, 4, 5]
        ∧ out.length = (5 + (2 : Int).toNat - 1) / (2 : Int).toNat)
    ∧ (∃ out, ArrayProto.rchunks ([1, 2, 3, 4, 5] : List Int) 2 6 = some out
        ∧ out.reverse.flatten = [1, 2, 3, 4, 5]
        ∧ out.length = (5 + (2 : Int).toNat - 1) / (2 : Int).toNat)
    ∧ ArrayProto.chunks ([1] : List Int) 0 7 = none
    ∧ ArrayProto.rchunks ([1] : List Int) 0 7 = none :=
  ⟨(chunks_rchunks_correct [1, 2, 3, 4, 5] 2).1 (by decide),
   (chunks_rchunks_correct [1, 2, 3, 4, 5] 2).2.1 (by decide),
   (chunks_rchunks_correct [1] 0).2.2.1 (by decide) (by decide) 7,
   (chunks_rchunks_correct [1] 0).2.2.2 (by decide) (by decide) 7⟩
